import Mathlib

/-!
Verification of the learn2learn repository's specified behaviour.

Part 1 embeds the MiniImagenet dataset loader
(learn2learn/vision/datasets/mini_imagenet.py): the constructor's mode
dispatch, the index_classes helper, and getitem.

Part 2 embeds the gradient-based fast-adaptation core (module cloner and
MAML adaptation engine).  That code is exercised by
tests/unit/algorithms/maml_test.py but its implementation is not part of
the sources at hand, so it is modelled from the specification: tensor
values are exact rationals, the autodiff substrate is a symbolic
expression language over the original model's leaf parameters, and the
module tree is flattened to its list of parameters (name paths become
indices).
-/

namespace Learn2Learn

/-! ### Part 1: MiniImagenet dataset loader -/

/-- Error raised by the MiniImagenet constructor; mirrors the
ValueError of mini_imagenet.py line 94, which the spec's taxonomy calls
InvalidModeError. -/
inductive InitError where
  | invalidMode : String → InitError
deriving DecidableEq

/-- The mode dispatch performed by MiniImagenet.__init__ (lines 87-94):
each recognized mode selects a pickle file path, any other mode raises at
construction time. -/
def modePickleFile (mode : String) : Except InitError String :=
  if mode = "test" then
    Except.ok "/content/learn2learn/learn2learn/data/mini-imagenet-cache-test.pkl"
  else if mode = "train" then
    Except.ok "/content/learn2learn/learn2learn/data/mini-imagenet-cache-train.pkl"
  else if mode = "validation" then
    Except.ok "/content/learn2learn/learn2learn/data/mini-imagenet-cache-validation.pkl"
  else
    Except.error (InitError.invalidMode "Needs to be train, test or validation")

/-- One iteration of the loop in index_classes (mini_imagenet.py lines
28-30): insert the item with value len(idx) unless already a key.  The
dict is modelled as an insertion-ordered association list. -/
def idxStep {α : Type _} [DecidableEq α] (idx : List (α × ℕ)) (i : α) : List (α × ℕ) :=
  if i ∈ idx.map Prod.fst then idx else idx ++ [(i, idx.length)]

/-- index_classes (mini_imagenet.py lines 26-31). -/
def index_classes {α : Type _} [DecidableEq α] (items : List α) : List (α × ℕ) :=
  items.foldl idxStep []

/-- Dictionary lookup in the association list produced by index_classes. -/
def classIndex {α : Type _} [DecidableEq α] (m : List (α × ℕ)) (a : α) : Option ℕ :=
  (m.find? (fun p => decide (p.1 = a))).map Prod.snd

/-- The MiniImagenet dataset object after construction: the image list,
the label list, and the two stored transforms (mini_imagenet.py lines
83-84, 101-108). -/
structure MiniImagenet (I L : Type _) where
  x : List I
  y : List L
  transform : Option (I → I)
  target_transform : Option (L → L)

/-- MiniImagenet.__getitem__ (mini_imagenet.py lines 110-114): apply
transform to the image when present, return the label unprocessed. -/
def MiniImagenet.getitem {I L : Type _} (ds : MiniImagenet I L) (idx : ℕ)
    (hx : idx < ds.x.length) (hy : idx < ds.y.length) : I × L :=
  (match ds.transform with
   | some t => t (ds.x.get ⟨idx, hx⟩)
   | none => ds.x.get ⟨idx, hx⟩,
   ds.y.get ⟨idx, hy⟩)

/-! Properties of index_classes (for C9). -/

theorem index_classes_append {α : Type _} [DecidableEq α] (items : List α) (x : α) :
    index_classes (items ++ [x]) = idxStep (index_classes items) x := by
  simp [index_classes, List.foldl_append]

theorem mem_keys_index_classes {α : Type _} [DecidableEq α] (items : List α) :
    ∀ a, a ∈ (index_classes items).map Prod.fst ↔ a ∈ items := by
  induction items using List.reverseRecOn with
  | nil => intro a; simp [index_classes]
  | append_singleton xs x ih =>
    intro a
    rw [index_classes_append, idxStep]
    by_cases hx : x ∈ (index_classes xs).map Prod.fst
    · rw [if_pos hx, ih a]
      have hx' := (ih x).1 hx
      simp only [List.mem_append, List.mem_singleton]
      constructor
      · exact Or.inl
      · rintro (h | rfl)
        · exact h
        · exact hx'
    · rw [if_neg hx]
      simp only [List.map_append, List.mem_append, ih a, List.map_cons, List.map_nil,
        List.mem_singleton, List.mem_cons, List.not_mem_nil, or_false]

theorem snds_index_classes {α : Type _} [DecidableEq α] (items : List α) :
    (index_classes items).map Prod.snd = List.range (index_classes items).length := by
  induction items using List.reverseRecOn with
  | nil => simp [index_classes]
  | append_singleton xs x ih =>
    rw [index_classes_append, idxStep]
    by_cases hx : x ∈ (index_classes xs).map Prod.fst
    · rw [if_pos hx]; exact ih
    · rw [if_neg hx]
      simp only [List.map_append, List.map_cons, List.map_nil, List.length_append,
        List.length_cons, List.length_nil, ih, List.range_succ]

theorem length_index_classes {α : Type _} [DecidableEq α] (items : List α) :
    (index_classes items).length = items.toFinset.card := by
  induction items using List.reverseRecOn with
  | nil => simp [index_classes]
  | append_singleton xs x ih =>
    rw [index_classes_append, idxStep]
    have hkey : x ∈ (index_classes xs).map Prod.fst ↔ x ∈ xs := mem_keys_index_classes xs x
    have htf : (xs ++ [x]).toFinset = insert x xs.toFinset := by
      rw [List.toFinset_append]
      simp [Finset.union_comm, Finset.insert_eq]
    by_cases hx : x ∈ (index_classes xs).map Prod.fst
    · rw [if_pos hx, htf, Finset.insert_eq_self.2 (List.mem_toFinset.2 (hkey.1 hx))]
      exact ih
    · rw [if_neg hx, htf,
        Finset.card_insert_of_not_mem (fun h => hx (hkey.2 (List.mem_toFinset.1 h)))]
      simp [ih]

theorem not_mem_take_indexOf {α : Type _} [DecidableEq α] (l : List α) (a : α) :
    a ∉ l.take (l.indexOf a) := by
  induction l with
  | nil => simp
  | cons b t ih =>
    by_cases hb : b = a
    · subst hb; simp [List.indexOf_cons_self]
    · rw [List.indexOf_cons_ne _ hb]
      intro hmem
      rw [Nat.succ_eq_add_one, List.take_succ_cons] at hmem
      rcases List.mem_cons.mp hmem with h | h
      · exact hb h.symm
      · exact ih h

theorem mem_take_of_indexOf_lt {α : Type _} [DecidableEq α] {l : List α} {a : α} {n : ℕ}
    (ha : a ∈ l) (h : l.indexOf a < n) : a ∈ l.take n := by
  rw [List.mem_take_iff_getElem]
  exact ⟨l.indexOf a, lt_min h (List.indexOf_lt_length.2 ha), List.getElem_indexOf _⟩

theorem take_card_lt_of_indexOf_lt {α : Type _} [DecidableEq α] {items : List α} {a b : α}
    (ha : a ∈ items) (h : items.indexOf a < items.indexOf b) :
    (items.take (items.indexOf a)).toFinset.card <
      (items.take (items.indexOf b)).toFinset.card := by
  apply Finset.card_lt_card
  rw [Finset.ssubset_def]
  constructor
  · intro y hy
    rw [List.mem_toFinset] at hy ⊢
    exact List.take_subset_take_left items h.le hy
  · intro hcon
    have hmem : a ∈ (items.take (items.indexOf b)).toFinset :=
      List.mem_toFinset.2 (mem_take_of_indexOf_lt ha h)
    exact not_mem_take_indexOf items a (List.mem_toFinset.1 (hcon hmem))

theorem classIndex_index_classes {α : Type _} [DecidableEq α] (items : List α) :
    ∀ a, a ∈ items →
      classIndex (index_classes items) a =
        some ((items.take (items.indexOf a)).toFinset.card) := by
  induction items using List.reverseRecOn with
  | nil => intro a ha; simp at ha
  | append_singleton xs x ih =>
    intro a ha
    rw [index_classes_append, idxStep]
    by_cases hmem : a ∈ xs
    · have h1 : (xs ++ [x]).indexOf a = xs.indexOf a := List.indexOf_append_of_mem hmem
      have h2 : (xs ++ [x]).take (xs.indexOf a) = xs.take (xs.indexOf a) :=
        List.take_append_of_le_length (le_of_lt (List.indexOf_lt_length.2 hmem))
      rw [h1, h2]
      by_cases hx : x ∈ (index_classes xs).map Prod.fst
      · rw [if_pos hx]; exact ih a hmem
      · rw [if_neg hx]
        have hkey : a ∈ (index_classes xs).map Prod.fst :=
          (mem_keys_index_classes xs a).2 hmem
        have hfind : ((index_classes xs).find? (fun p => decide (p.1 = a))).isSome := by
          rw [List.find?_isSome]
          rcases List.mem_map.mp hkey with ⟨p, hp, hpa⟩
          exact ⟨p, hp, by simp [hpa]⟩
        obtain ⟨q, hq⟩ := Option.isSome_iff_exists.mp hfind
        have hold := ih a hmem
        unfold classIndex at hold ⊢
        rw [List.find?_append, hq]
        rw [hq] at hold
        simpa using hold
    · have hax : a = x := by
        rcases List.mem_append.mp ha with h | h
        · exact absurd h hmem
        · simpa using h
      subst hax
      have hx : ¬ a ∈ (index_classes xs).map Prod.fst := fun h =>
        hmem ((mem_keys_index_classes xs a).1 h)
      rw [if_neg hx]
      have hnone : (index_classes xs).find? (fun p => decide (p.1 = a)) = none := by
        rw [List.find?_eq_none]
        intro p hp hpa
        exact hx (List.mem_map.mpr ⟨p, hp, by simpa using hpa⟩)
      unfold classIndex
      rw [List.find?_append, hnone]
      have hidx : (xs ++ [a]).indexOf a = xs.length := by
        rw [List.indexOf_append_of_not_mem hmem, List.indexOf_cons_self]
        exact Nat.add_zero _
      rw [hidx]
      rw [List.take_left]
      simp [length_index_classes]

/-- C9: index_classes maps each distinct item to the rank of its first
occurrence among distinct items (the number of distinct items occurring
strictly before its first occurrence), the mapping is injective, its list
of values is exactly the range 0..n-1 in order where n is the number of
distinct items, and one item's index is smaller than another's exactly
when it first appears earlier. -/
theorem C9_index_classes_spec {α : Type _} [DecidableEq α] (items : List α) :
    (∀ a, a ∈ items →
      classIndex (index_classes items) a =
        some ((items.take (items.indexOf a)).toFinset.card)) ∧
    (∀ a b, a ∈ items → b ∈ items →
      classIndex (index_classes items) a = classIndex (index_classes items) b → a = b) ∧
    ((index_classes items).map Prod.snd = List.range items.toFinset.card) ∧
    (∀ a b, a ∈ items → b ∈ items →
      ((items.take (items.indexOf a)).toFinset.card <
          (items.take (items.indexOf b)).toFinset.card ↔
        items.indexOf a < items.indexOf b)) := by
  have horder : ∀ a b, a ∈ items → b ∈ items →
      ((items.take (items.indexOf a)).toFinset.card <
          (items.take (items.indexOf b)).toFinset.card ↔
        items.indexOf a < items.indexOf b) := by
    intro a b ha hb
    constructor
    · intro hcard
      rcases lt_trichotomy (items.indexOf a) (items.indexOf b) with h | h | h
      · exact h
      · rw [h] at hcard; exact absurd hcard (lt_irrefl _)
      · exact absurd (take_card_lt_of_indexOf_lt hb h) (not_lt.2 hcard.le)
    · exact fun h => take_card_lt_of_indexOf_lt ha h
  refine ⟨classIndex_index_classes items, ?_, ?_, horder⟩
  · intro a b ha hb heq
    rw [classIndex_index_classes items a ha, classIndex_index_classes items b hb] at heq
    have hcard := Option.some_injective _ heq
    rcases lt_trichotomy (items.indexOf a) (items.indexOf b) with h | h | h
    · exact absurd ((horder a b ha hb).2 h) (by rw [hcard]; exact lt_irrefl _)
    · exact (List.indexOf_inj ha hb).1 h
    · exact absurd ((horder b a hb ha).2 h) (by rw [hcard]; exact lt_irrefl _)
  · rw [snds_index_classes, length_index_classes]

/-- Witness for C9 on a concrete list: in the list 5, 3, 5, 7 the item 3
first occurs at position 1 with one distinct item before it, so its class
index is 1. -/
theorem C9_index_classes_spec_witness :
    classIndex (index_classes [5, 3, 5, 7]) 3 = some 1 := by
  have h := (C9_index_classes_spec [5, 3, 5, 7]).1 3 (by decide)
  rw [h]
  rfl

/-- C8: constructing the dataset loader with a mode string other than
train, validation or test fails at construction time with the invalid
mode error, and construction with any of the three recognized mode
strings selects a pickle file and does not raise for this reason. -/
theorem C8_invalid_mode_check (mode : String) :
    (modePickleFile mode =
        Except.error (InitError.invalidMode "Needs to be train, test or validation") ↔
      ¬(mode = "train" ∨ mode = "validation" ∨ mode = "test")) ∧
    ((∃ f, modePickleFile mode = Except.ok f) ↔
      (mode = "train" ∨ mode = "validation" ∨ mode = "test")) := by
  by_cases h1 : mode = "test" <;> by_cases h2 : mode = "train" <;>
    by_cases h3 : mode = "validation" <;>
    simp [modePickleFile, h1, h2, h3]

/-- C10: getitem returns the label y idx unchanged regardless of any
target_transform supplied at construction (the stored target_transform is
never applied), while transform, when supplied, is applied to the
image. -/
theorem C10_target_transform_unused {I L : Type _}
    (x : List I) (y : List L) (tf : Option (I → I)) (tt tt' : Option (L → L))
    (idx : ℕ) (hx : idx < x.length) (hy : idx < y.length) :
    ((MiniImagenet.mk x y tf tt).getitem idx hx hy).2 = y.get ⟨idx, hy⟩ ∧
    (MiniImagenet.mk x y tf tt).getitem idx hx hy =
      (MiniImagenet.mk x y tf tt').getitem idx hx hy ∧
    (∀ t, tf = some t →
      ((MiniImagenet.mk x y tf tt).getitem idx hx hy).1 = t (x.get ⟨idx, hx⟩)) ∧
    (tf = none →
      ((MiniImagenet.mk x y tf tt).getitem idx hx hy).1 = x.get ⟨idx, hx⟩) := by
  refine ⟨rfl, rfl, ?_, ?_⟩
  · intro t ht
    simp [MiniImagenet.getitem, ht]
  · intro ht
    simp [MiniImagenet.getitem, ht]

/-- Witness for C10 at a concrete dataset: labels come back unchanged
even though a target transform was supplied, and the image transform is
applied. -/
theorem C10_target_transform_unused_witness :
    ((MiniImagenet.mk [10, 20] [7, 8] (some (fun v : ℤ => v + 1))
        (some (fun l : ℤ => l * 2))).getitem 0 (by decide) (by decide)).2 =
      ([7, 8] : List ℤ).get ⟨0, by decide⟩ :=
  (C10_target_transform_unused [10, 20] [7, 8] (some (fun v : ℤ => v + 1))
    (some (fun l : ℤ => l * 2)) (some (fun l : ℤ => l * 2)) 0
    (by decide) (by decide)).1

/-! ### Part 2: module cloner and MAML adaptation engine

Modelled from the spec: the implementation of the adaptation core
(learn2learn.algorithms.MAML together with its module cloner and gradient
helper) is not among the sources at hand, only its unit tests are, so the
definitions below follow the specification text (sections 2, 3, 4.1, 4.2,
7 and 9 of the spec): tensors carry exact rational values, the autodiff
substrate is a symbolic expression language over the original model's
leaf parameters, and the module tree is flattened to its list of
parameters, name paths becoming indices. -/

/-- Modelled from the spec: a graph-linked tensor value of the autodiff
substrate, as an expression over the original model's leaf parameters.
A detached tensor is a constant with no leaf occurrences. -/
inductive Expr where
  | leaf : ℕ → Expr
  | const : ℚ → Expr
  | add : Expr → Expr → Expr
  | sub : Expr → Expr → Expr
  | mul : Expr → Expr → Expr
deriving DecidableEq

/-- Forward evaluation of a graph-linked value, given the numeric values
of the original leaf parameters. -/
def Expr.eval (env : ℕ → ℚ) : Expr → ℚ
  | Expr.leaf j => env j
  | Expr.const c => c
  | Expr.add a b => a.eval env + b.eval env
  | Expr.sub a b => a.eval env - b.eval env
  | Expr.mul a b => a.eval env * b.eval env

/-- Reverse-mode differentiation of a scalar with respect to the original
leaf parameter j; the result is itself graph-linked, so it can be
differentiated again (the higher-order-capable gradient of the spec). -/
def Expr.deriv : Expr → ℕ → Expr
  | Expr.leaf i, j => Expr.const (if i = j then 1 else 0)
  | Expr.const _, _ => Expr.const 0
  | Expr.add a b, j => Expr.add (a.deriv j) (b.deriv j)
  | Expr.sub a b, j => Expr.sub (a.deriv j) (b.deriv j)
  | Expr.mul a b, j => Expr.add (Expr.mul (a.deriv j) b) (Expr.mul a (b.deriv j))

/-- Whether the computation graph of a value reaches the original leaf
parameter j. -/
def Expr.usesLeaf : Expr → ℕ → Bool
  | Expr.leaf i, j => decide (i = j)
  | Expr.const _, _ => false
  | Expr.add a b, j => a.usesLeaf j || b.usesLeaf j
  | Expr.sub a b, j => a.usesLeaf j || b.usesLeaf j
  | Expr.mul a b, j => a.usesLeaf j || b.usesLeaf j

/-- Modelled from the spec: the body of a forward computation or of a
loss, as a function of the module's parameter slots (pvar), buffer slots
(bvar) and the input (xvar). -/
inductive FExpr where
  | pvar : ℕ → FExpr
  | xvar : FExpr
  | bvar : ℕ → FExpr
  | const : ℚ → FExpr
  | add : FExpr → FExpr → FExpr
  | sub : FExpr → FExpr → FExpr
  | mul : FExpr → FExpr → FExpr
deriving DecidableEq

/-- Run a body on the current graph-linked parameter values V, buffer
values and input, producing the graph-linked output value.  Buffers are
non-differentiable, so they enter as detached constants. -/
def FExpr.instantiate (V : ℕ → Expr) (buf : ℕ → ℚ) (x : ℚ) : FExpr → Expr
  | FExpr.pvar i => V i
  | FExpr.xvar => Expr.const x
  | FExpr.bvar i => Expr.const (buf i)
  | FExpr.const c => Expr.const c
  | FExpr.add a b => Expr.add (a.instantiate V buf x) (b.instantiate V buf x)
  | FExpr.sub a b => Expr.sub (a.instantiate V buf x) (b.instantiate V buf x)
  | FExpr.mul a b => Expr.mul (a.instantiate V buf x) (b.instantiate V buf x)

/-- Differentiation of a body with respect to parameter slot i: the
gradient of the loss with respect to one of the clone's current
parameters. -/
def FExpr.derivP : FExpr → ℕ → FExpr
  | FExpr.pvar i, j => FExpr.const (if i = j then 1 else 0)
  | FExpr.xvar, _ => FExpr.const 0
  | FExpr.bvar _, _ => FExpr.const 0
  | FExpr.const _, _ => FExpr.const 0
  | FExpr.add a b, j => FExpr.add (a.derivP j) (b.derivP j)
  | FExpr.sub a b, j => FExpr.sub (a.derivP j) (b.derivP j)
  | FExpr.mul a b, j => FExpr.add (FExpr.mul (a.derivP j) b) (FExpr.mul a (b.derivP j))

/-- Whether a body depends on parameter slot i.  A parameter on which the
loss does not depend is exactly a parameter for which no gradient exists
during adapt. -/
def FExpr.usesP : FExpr → ℕ → Bool
  | FExpr.pvar i, j => decide (i = j)
  | FExpr.xvar, _ => false
  | FExpr.bvar _, _ => false
  | FExpr.const _, _ => false
  | FExpr.add a b, j => a.usesP j || b.usesP j
  | FExpr.sub a b, j => a.usesP j || b.usesP j
  | FExpr.mul a b, j => a.usesP j || b.usesP j

/-- Modelled from the spec: a parameter is a tensor value together with a
requires_grad flag. -/
structure Param where
  value : Expr
  requires_grad : Bool
deriving DecidableEq

/-- Placeholder parameter used for out-of-range indices. -/
def defaultParam : Param := { value := Expr.const 0, requires_grad := false }

/-- Modelled from the spec: a module is its (flattened) list of
parameters, its buffers and its forward body. -/
structure Module where
  params : List Param
  buffers : List ℚ
  body : FExpr
deriving DecidableEq

/-- The graph-linked value of a module's parameter i. -/
def paramValue (M : Module) (i : ℕ) : Expr := (M.params.getD i defaultParam).value

/-- The numeric value of a module's buffer i. -/
def bufferValue (M : Module) (i : ℕ) : ℚ := M.buffers.getD i 0

/-- The graph-linked output of a module's forward pass on input x. -/
def Module.out (M : Module) (x : ℚ) : Expr :=
  M.body.instantiate (paramValue M) (bufferValue M) x

/-- Numeric forward pass of a module. -/
def Module.forward (env : ℕ → ℚ) (M : Module) (x : ℚ) : ℚ := (M.out x).eval env

/-- Modelled from the spec (section 4.1): cloning a parameter.  A
parameter that requires gradients is cloned through the differentiable
identity update (new equals old plus zero), keeping the graph link; a
frozen parameter is cloned as a plain detached copy. -/
def cloneParam (env : ℕ → ℚ) (p : Param) : Param :=
  if p.requires_grad then { p with value := Expr.add p.value (Expr.const 0) }
  else { p with value := Expr.const (p.value.eval env) }

/-- Modelled from the spec (section 4.1): the module cloner.  Structure
and buffers are copied, every parameter is cloned. -/
def cloneModule (env : ℕ → ℚ) (M : Module) : Module :=
  { M with params := M.params.map (cloneParam env) }

/-- Modelled from the spec (section 3): the adaptable MAML wrapper with
its configuration flags. -/
structure MAML where
  module : Module
  lr : ℚ
  first_order : Bool
  allow_unused : Bool
  allow_nograd : Bool
deriving DecidableEq

/-- The clone operation of the wrapper: apply the module cloner and
inherit the configuration. -/
def MAML.clone (env : ℕ → ℚ) (m : MAML) : MAML :=
  { m with module := cloneModule env m.module }

/-- Forward pass of the wrapper: delegates to the wrapped module. -/
def MAML.forward (env : ℕ → ℚ) (m : MAML) (x : ℚ) : ℚ :=
  Module.forward env m.module x

/-- Modelled from the spec (section 7): the error taxonomy of adapt. -/
inductive AdaptError where
  | missingGradient
  | gradientComputation
deriving DecidableEq

/-- Per-call override of a configuration flag: the call-supplied value
wins, otherwise the construction-time default applies. -/
def resolveFlag (override : Option Bool) (dflt : Bool) : Bool := override.getD dflt

/-- The gradient of the loss body with respect to parameter slot i,
instantiated at the module's current parameter values; none when the loss
does not depend on that parameter. -/
def lossGrad (M : Module) (L : FExpr) (x : ℚ) (i : ℕ) : Option Expr :=
  if L.usesP i then
    some ((L.derivP i).instantiate (paramValue M) (bufferValue M) x)
  else none

/-- First-order mode detaches the gradient value from the graph. -/
def detachIf (env : ℕ → ℚ) (fo : Bool) (g : Expr) : Expr :=
  if fo then Expr.const (g.eval env) else g

/-- The gradient-descent update of one parameter: new value equals old
minus lr times gradient, as a graph-linked expression; frozen parameters
and parameters without a gradient are left unchanged. -/
def updateParam (lr : ℚ) (env : ℕ → ℚ) (fo : Bool) (M : Module) (L : FExpr) (x : ℚ)
    (i : ℕ) (p : Param) : Param :=
  if p.requires_grad then
    match lossGrad M L x i with
    | some g =>
        { p with value := Expr.sub p.value (Expr.mul (Expr.const lr) (detachIf env fo g)) }
    | none => p
  else p

/-- The nograd error condition: some parameter does not require gradients
while allow_nograd is not enabled. -/
def nogradViolation (m : MAML) (ng : Option Bool) : Bool :=
  (! resolveFlag ng m.allow_nograd) && m.module.params.any (fun p => ! p.requires_grad)

/-- The unused error condition: some gradient-requiring parameter has no
gradient while allow_unused is not enabled. -/
def unusedViolation (m : MAML) (L : FExpr) (un : Option Bool) : Bool :=
  (! resolveFlag un m.allow_unused) &&
    (List.range m.module.params.length).any
      (fun i => (m.module.params.getD i defaultParam).requires_grad && ! L.usesP i)

/-- The parameter list after a successful adaptation step. -/
def adaptedModule (env : ℕ → ℚ) (fo : Bool) (m : MAML) (L : FExpr) (x : ℚ) : Module :=
  { m.module with
    params := (List.range m.module.params.length).map
      (fun i => updateParam m.lr env fo m.module L x i
        (m.module.params.getD i defaultParam)) }

/-- Modelled from the spec (section 4.2): adapt.  The loss is given by
its body L over the wrapper's current parameter slots together with the
input x it was computed at.  Raises the gradient computation error when a
parameter is frozen and allow_nograd is not enabled, the missing gradient
error when a gradient-requiring parameter has no gradient and
allow_unused is not enabled, and otherwise replaces every parameter that
has a gradient by its gradient-descent update. -/
def MAML.adapt (env : ℕ → ℚ) (m : MAML) (L : FExpr) (x : ℚ)
    (fo un ng : Option Bool) : Except AdaptError MAML :=
  if nogradViolation m ng then Except.error AdaptError.gradientComputation
  else if unusedViolation m L un then Except.error AdaptError.missingGradient
  else Except.ok { m with module := adaptedModule env (resolveFlag fo m.first_order) m L x }

/-- Adapt acting on the world state: the original model's leaf values
together with the wrapper being adapted.  Per the spec only the clone's
own parameter list is reseated; the original parameters are read, never
written. -/
def adaptState (s : (ℕ → ℚ) × MAML) (L : FExpr) (x : ℚ) (fo un ng : Option Bool) :
    Except AdaptError ((ℕ → ℚ) × MAML) :=
  (s.2.adapt s.1 L x fo un ng).map (fun m' => (s.1, m'))

/-- A sequence of adaptation steps, each with its own loss body and
input, with the construction-time flags. -/
def adaptN (env : ℕ → ℚ) (steps : List (FExpr × ℚ)) (m : MAML) : Except AdaptError MAML :=
  match steps with
  | [] => Except.ok m
  | s :: rest =>
    match m.adapt env s.1 s.2 none none none with
    | Except.ok m' => adaptN env rest m'
    | Except.error e => Except.error e

/-- The gradient deposited into original leaf parameter j by a backward
pass on the scalar S: non-null exactly when the leaf requires gradients
and is reached by the graph of S. -/
def backwardGrad (rg : ℕ → Bool) (env : ℕ → ℚ) (S : Expr) (j : ℕ) : Option ℚ :=
  if rg j && S.usesLeaf j then some ((S.deriv j).eval env) else none

/-- An original (un-cloned) module: parameter i is the leaf tensor i,
with the given requires_grad flags. -/
def baseModule (flags : List Bool) (body : FExpr) : Module :=
  { params := (List.range flags.length).map
      (fun i => { value := Expr.leaf i, requires_grad := flags.getD i false }),
    buffers := [],
    body := body }

/-- The squared L2 norm of the first n parameter slots, the
norm-minimizing objective of the tests. -/
def sumSqList (l : List ℕ) : FExpr :=
  l.foldr (fun i acc => FExpr.add (FExpr.mul (FExpr.pvar i) (FExpr.pvar i)) acc) (FExpr.const 0)

/-- The squared L2 norm objective over parameter slots 0 to n-1. -/
def sumSq (n : ℕ) : FExpr := sumSqList (List.range n)

/-! Basic facts about the embedding. -/

theorem eval_instantiate_congr (env : ℕ → ℚ) (V W : ℕ → Expr) (buf : ℕ → ℚ) (x : ℚ)
    (h : ∀ i, (V i).eval env = (W i).eval env) (B : FExpr) :
    (B.instantiate V buf x).eval env = (B.instantiate W buf x).eval env := by
  induction B with
  | pvar i => exact h i
  | xvar => rfl
  | bvar i => rfl
  | const c => rfl
  | add a b iha ihb => simp only [FExpr.instantiate, Expr.eval, iha, ihb]
  | sub a b iha ihb => simp only [FExpr.instantiate, Expr.eval, iha, ihb]
  | mul a b iha ihb => simp only [FExpr.instantiate, Expr.eval, iha, ihb]

theorem eval_cloneParam (env : ℕ → ℚ) (p : Param) :
    (cloneParam env p).value.eval env = p.value.eval env := by
  unfold cloneParam
  by_cases hr : p.requires_grad <;> simp [hr, Expr.eval]

theorem eval_paramValue_cloneModule (env : ℕ → ℚ) (M : Module) (i : ℕ) :
    (paramValue (cloneModule env M) i).eval env = (paramValue M i).eval env := by
  unfold paramValue cloneModule
  simp only [List.getD_eq_getElem?_getD, List.getElem?_map]
  cases hp : M.params[i]? with
  | none => rfl
  | some p => exact eval_cloneParam env p

/-- C1: for every module and every input, before any adaptation step,
the cloned module's forward output equals the original's, hence in
particular agrees within the tolerance 1e-8. -/
theorem C1_clone_fidelity (env : ℕ → ℚ) (m : MAML) (x : ℚ) :
    MAML.forward env (MAML.clone env m) x = MAML.forward env m x ∧
    |MAML.forward env (MAML.clone env m) x - MAML.forward env m x| ≤ 1 / 100000000 := by
  have heq : MAML.forward env (MAML.clone env m) x = MAML.forward env m x := by
    unfold MAML.forward MAML.clone Module.forward Module.out
    exact eval_instantiate_congr env _ _ _ x
      (fun i => eval_paramValue_cloneModule env m.module i) m.module.body
  refine ⟨heq, ?_⟩
  rw [heq]
  simp

/-! Inversion of the adapt operation. -/

theorem adapt_eq_error_gradientComputation_iff (env : ℕ → ℚ) (m : MAML) (L : FExpr)
    (x : ℚ) (fo un ng : Option Bool) :
    m.adapt env L x fo un ng = Except.error AdaptError.gradientComputation ↔
      nogradViolation m ng = true := by
  unfold MAML.adapt
  by_cases h1 : nogradViolation m ng <;> by_cases h2 : unusedViolation m L un <;>
    simp [h1, h2]

theorem adapt_eq_error_missingGradient_iff (env : ℕ → ℚ) (m : MAML) (L : FExpr)
    (x : ℚ) (fo un ng : Option Bool) :
    m.adapt env L x fo un ng = Except.error AdaptError.missingGradient ↔
      (nogradViolation m ng = false ∧ unusedViolation m L un = true) := by
  unfold MAML.adapt
  by_cases h1 : nogradViolation m ng <;> by_cases h2 : unusedViolation m L un <;>
    simp [h1, h2]

theorem adapt_eq_ok_iff (env : ℕ → ℚ) (m : MAML) (L : FExpr) (x : ℚ)
    (fo un ng : Option Bool) (m' : MAML) :
    m.adapt env L x fo un ng = Except.ok m' ↔
      (nogradViolation m ng = false ∧ unusedViolation m L un = false ∧
        m' = { m with module := adaptedModule env (resolveFlag fo m.first_order) m L x }) := by
  unfold MAML.adapt
  by_cases h1 : nogradViolation m ng <;> by_cases h2 : unusedViolation m L un <;>
    simp [h1, h2, eq_comm]

theorem nogradViolation_iff (m : MAML) (ng : Option Bool) :
    nogradViolation m ng = true ↔
      (resolveFlag ng m.allow_nograd = false ∧
        ∃ p ∈ m.module.params, p.requires_grad = false) := by
  unfold nogradViolation
  simp [List.any_eq_true]

theorem unusedViolation_iff (m : MAML) (L : FExpr) (un : Option Bool) :
    unusedViolation m L un = true ↔
      (resolveFlag un m.allow_unused = false ∧
        ∃ i < m.module.params.length,
          (m.module.params.getD i defaultParam).requires_grad = true ∧
            L.usesP i = false) := by
  unfold unusedViolation
  simp [List.any_eq_true, List.mem_range]

theorem params_getD_adaptedModule (env : ℕ → ℚ) (fo : Bool) (m : MAML) (L : FExpr)
    (x : ℚ) (i : ℕ) (hi : i < m.module.params.length) :
    (adaptedModule env fo m L x).params.getD i defaultParam =
      updateParam m.lr env fo m.module L x i (m.module.params.getD i defaultParam) := by
  unfold adaptedModule
  simp only [List.getD_eq_getElem?_getD, List.getElem?_map, List.getElem?_range hi,
    Option.map_some', Option.getD_some]

theorem params_getD_adaptedModule_ge (env : ℕ → ℚ) (fo : Bool) (m : MAML) (L : FExpr)
    (x : ℚ) (i : ℕ) (hi : m.module.params.length ≤ i) :
    (adaptedModule env fo m L x).params.getD i defaultParam = defaultParam := by
  unfold adaptedModule
  have : (List.range m.module.params.length)[i]? = none := by
    rw [List.getElem?_eq_none]
    simpa using hi
  simp only [List.getD_eq_getElem?_getD, List.getElem?_map, this, Option.map_none',
    Option.getD_none]

theorem updateParam_frozen (lr : ℚ) (env : ℕ → ℚ) (fo : Bool) (M : Module) (L : FExpr)
    (x : ℚ) (i : ℕ) (p : Param) (h : p.requires_grad = false) :
    updateParam lr env fo M L x i p = p := by
  unfold updateParam
  simp [h]

theorem updateParam_unused (lr : ℚ) (env : ℕ → ℚ) (fo : Bool) (M : Module) (L : FExpr)
    (x : ℚ) (i : ℕ) (p : Param) (h : L.usesP i = false) :
    updateParam lr env fo M L x i p = p := by
  unfold updateParam lossGrad
  rw [h]
  simp

/-- C3: during adapt, a parameter with requires_grad false has its
gradient computation and update skipped when allow_nograd is enabled
(per-call or from construction), and adapt fails with the gradient
computation error exactly when some parameter has requires_grad false and
allow_nograd is not enabled. -/
theorem C3_nograd_error_iff (env : ℕ → ℚ) (m : MAML) (L : FExpr) (x : ℚ)
    (fo un ng : Option Bool) :
    (m.adapt env L x fo un ng = Except.error AdaptError.gradientComputation ↔
      (resolveFlag ng m.allow_nograd = false ∧
        ∃ p ∈ m.module.params, p.requires_grad = false)) ∧
    (∀ m', m.adapt env L x fo un ng = Except.ok m' →
      ∀ i, (m.module.params.getD i defaultParam).requires_grad = false →
        m'.module.params.getD i defaultParam = m.module.params.getD i defaultParam) := by
  constructor
  · rw [adapt_eq_error_gradientComputation_iff, nogradViolation_iff]
  · intro m' hok i hfrozen
    obtain ⟨h1, h2, rfl⟩ := (adapt_eq_ok_iff env m L x fo un ng m').1 hok
    dsimp only
    by_cases hi : i < m.module.params.length
    · rw [params_getD_adaptedModule env _ m L x i hi]
      exact updateParam_frozen _ _ _ _ _ _ _ _ hfrozen
    · push_neg at hi
      rw [params_getD_adaptedModule_ge env _ m L x i hi,
        List.getD_eq_getElem?_getD, List.getElem?_eq_none (by simpa using hi)]
      rfl

/-- A two-parameter module whose second parameter is frozen, used to
exercise the allow_nograd behaviour. -/
def c3module : Module :=
  { params := [⟨Expr.leaf 0, true⟩, ⟨Expr.leaf 1, false⟩],
    buffers := [],
    body := FExpr.pvar 0 }

/-- The c3 test wrapper with all flags off. -/
def c3m : MAML :=
  { module := c3module, lr := 1, first_order := false,
    allow_unused := false, allow_nograd := false }

/-- The result of adapting c3m with the per-call allow_nograd override. -/
def c3adapted : MAML :=
  match c3m.adapt (fun _ => 0) (FExpr.pvar 0) 0 none none (some true) with
  | Except.ok m' => m'
  | Except.error _ => c3m

/-- Witness for C3: without allow_nograd the adaptation of c3m fails with
the gradient computation error; with the per-call override the frozen
parameter is left untouched. -/
theorem C3_nograd_error_iff_witness :
    c3m.adapt (fun _ => 0) (FExpr.pvar 0) 0 none none none =
        Except.error AdaptError.gradientComputation ∧
    c3adapted.module.params.getD 1 defaultParam = c3m.module.params.getD 1 defaultParam :=
  ⟨(C3_nograd_error_iff (fun _ => 0) c3m (FExpr.pvar 0) 0 none none none).1.mpr
      (by decide),
   (C3_nograd_error_iff (fun _ => 0) c3m (FExpr.pvar 0) 0 none none (some true)).2
      c3adapted (by rfl) 1 (by decide)⟩

/-- C4: during adapt, a gradient-requiring parameter on which the loss
does not depend leads to the missing gradient error exactly when
allow_unused is not enabled; when allow_unused is enabled the update is
skipped and the parameter keeps its previous graph-linked value
unchanged. -/
theorem C4_unused_error_iff (env : ℕ → ℚ) (m : MAML) (L : FExpr) (x : ℚ)
    (fo un ng : Option Bool) (hng : nogradViolation m ng = false) :
    (m.adapt env L x fo un ng = Except.error AdaptError.missingGradient ↔
      (resolveFlag un m.allow_unused = false ∧
        ∃ i < m.module.params.length,
          (m.module.params.getD i defaultParam).requires_grad = true ∧
            L.usesP i = false)) ∧
    (resolveFlag un m.allow_unused = true →
      ∃ m', m.adapt env L x fo un ng = Except.ok m' ∧
        ∀ i, L.usesP i = false →
          m'.module.params.getD i defaultParam = m.module.params.getD i defaultParam) := by
  constructor
  · rw [adapt_eq_error_missingGradient_iff, unusedViolation_iff]
    simp [hng]
  · intro hau
    have hun : unusedViolation m L un = false := by
      unfold unusedViolation
      simp [hau]
    refine ⟨_, (adapt_eq_ok_iff env m L x fo un ng _).2 ⟨hng, hun, rfl⟩, ?_⟩
    intro i husesP
    dsimp only
    by_cases hi : i < m.module.params.length
    · rw [params_getD_adaptedModule env _ m L x i hi]
      exact updateParam_unused _ _ _ _ _ _ _ _ husesP
    · push_neg at hi
      rw [params_getD_adaptedModule_ge env _ m L x i hi,
        List.getD_eq_getElem?_getD, List.getElem?_eq_none (by simpa using hi)]
      rfl

/-- A two-parameter module, adapted below with a loss that depends on
the first parameter only, to exercise the allow_unused behaviour. -/
def c4module : Module :=
  { params := [⟨Expr.leaf 0, true⟩, ⟨Expr.leaf 1, true⟩],
    buffers := [],
    body := FExpr.pvar 0 }

/-- The c4 test wrapper with all flags off. -/
def c4m : MAML :=
  { module := c4module, lr := 1, first_order := false,
    allow_unused := false, allow_nograd := false }

/-- Witness for C4: adapting c4m on a loss that ignores its second
parameter fails with the missing gradient error when allow_unused is not
enabled. -/
theorem C4_unused_error_iff_witness :
    c4m.adapt (fun _ => 0) (FExpr.pvar 0) 0 none none none =
      Except.error AdaptError.missingGradient :=
  (C4_unused_error_iff (fun _ => 0) c4m (FExpr.pvar 0) 0 none none none
    (by decide)).1.mpr (by decide)

/-- C7: adapting one clone changes neither the original module's
parameter values (the leaf environment of the world state) nor another
clone's forward output for the same input. -/
theorem C7_clone_independence (env : ℕ → ℚ) (w : MAML) (L : FExpr) (x : ℚ)
    (fo un ng : Option Bool) (x' : ℚ) (s' : (ℕ → ℚ) × MAML)
    (h : adaptState (env, MAML.clone env w) L x fo un ng = Except.ok s') :
    s'.1 = env ∧
    MAML.forward s'.1 (MAML.clone env w) x' = MAML.forward env (MAML.clone env w) x' := by
  unfold adaptState at h
  dsimp only at h
  cases hAd : (MAML.clone env w).adapt env L x fo un ng with
  | ok m' =>
    rw [hAd] at h
    simp only [Except.map] at h
    injection h with h'
    subst h'
    exact ⟨rfl, rfl⟩
  | error e =>
    rw [hAd] at h
    simp only [Except.map] at h
    exact absurd h (by simp)

/-- A one-parameter module used to exercise clone independence. -/
def c7module : Module :=
  { params := [⟨Expr.leaf 0, true⟩],
    buffers := [],
    body := FExpr.pvar 0 }

/-- The c7 test wrapper with allow_unused on. -/
def c7m : MAML :=
  { module := c7module, lr := 1, first_order := false,
    allow_unused := true, allow_nograd := false }

/-- The world state after adapting a fresh clone of c7m. -/
def c7state : (ℕ → ℚ) × MAML :=
  match adaptState ((fun _ => 0), MAML.clone (fun _ => 0) c7m) (FExpr.pvar 0) 0
      none none none with
  | Except.ok s' => s'
  | Except.error _ => ((fun _ => 0), c7m)

/-- Witness for C7: after adapting one clone of c7m, the original leaf
values are unchanged and a second clone's output is unchanged. -/
theorem C7_clone_independence_witness :
    c7state.1 = (fun _ => (0 : ℚ)) ∧
    MAML.forward c7state.1 (MAML.clone (fun _ => 0) c7m) 1 =
      MAML.forward (fun _ => 0) (MAML.clone (fun _ => 0) c7m) 1 :=
  C7_clone_independence (fun _ => 0) c7m (FExpr.pvar 0) 0 none none none 1 c7state
    (by rfl)

/-! Facts about the squared-norm objective and leaf usage. -/

theorem sumSqList_cons (j : ℕ) (t : List ℕ) :
    sumSqList (j :: t) =
      FExpr.add (FExpr.mul (FExpr.pvar j) (FExpr.pvar j)) (sumSqList t) := rfl

theorem usesP_sumSqList (l : List ℕ) (i : ℕ) :
    (sumSqList l).usesP i = true ↔ i ∈ l := by
  induction l with
  | nil => simp [sumSqList, FExpr.usesP]
  | cons j t ih =>
    rw [sumSqList_cons]
    simp only [FExpr.usesP, Bool.or_eq_true, decide_eq_true_eq, List.mem_cons, ih]
    constructor
    · rintro ((h | h) | h)
      · exact Or.inl h.symm
      · exact Or.inl h.symm
      · exact Or.inr h
    · rintro (rfl | h)
      · exact Or.inl (Or.inl rfl)
      · exact Or.inr h

theorem eval_instantiate_sumSqList (env : ℕ → ℚ) (V : ℕ → Expr) (buf : ℕ → ℚ) (x : ℚ)
    (l : List ℕ) :
    ((sumSqList l).instantiate V buf x).eval env =
      (l.map (fun i => (V i).eval env * (V i).eval env)).sum := by
  induction l with
  | nil => simp [sumSqList, FExpr.instantiate, Expr.eval]
  | cons j t ih =>
    rw [sumSqList_cons]
    simp [FExpr.instantiate, Expr.eval, ih]

theorem eval_instantiate_derivP_sumSqList (env : ℕ → ℚ) (V : ℕ → Expr) (buf : ℕ → ℚ)
    (x : ℚ) (l : List ℕ) (i : ℕ) :
    (((sumSqList l).derivP i).instantiate V buf x).eval env =
      2 * (l.count i : ℚ) * ((V i).eval env) := by
  induction l with
  | nil => simp [sumSqList, FExpr.derivP, FExpr.instantiate, Expr.eval]
  | cons j t ih =>
    rw [sumSqList_cons]
    by_cases hj : j = i
    · subst hj
      simp only [FExpr.derivP, FExpr.instantiate, Expr.eval, ih, List.count_cons,
        beq_self_eq_true, if_pos, ite_true, if_true]
      push_cast
      ring
    · simp only [FExpr.derivP, FExpr.instantiate, Expr.eval, ih, List.count_cons]
      rw [if_neg (by simp [hj]), if_neg (by simpa using hj)]
      push_cast
      ring

theorem count_range_eq (n i : ℕ) :
    (List.range n).count i = if i < n then 1 else 0 := by
  by_cases h : i < n
  · rw [if_pos h]
    exact List.count_eq_one_of_mem (List.nodup_range n) (List.mem_range.2 h)
  · rw [if_neg h]
    exact List.count_eq_zero_of_not_mem (fun hc => h (List.mem_range.1 hc))

theorem getD_mem_of_lt {α : Type _} (l : List α) (i : ℕ) (d : α) (hi : i < l.length) :
    l.getD i d ∈ l := by
  rw [List.getD_eq_getElem?_getD, List.getElem?_eq_getElem hi]
  exact List.getElem_mem hi

theorem eval_detachIf (env : ℕ → ℚ) (fo : Bool) (g : Expr) :
    (detachIf env fo g).eval env = g.eval env := by
  unfold detachIf
  cases fo <;> simp [Expr.eval]

theorem usesLeaf_instantiate {V : ℕ → Expr} {buf : ℕ → ℚ} {x : ℚ} {i j : ℕ} (B : FExpr)
    (hp : B.usesP i = true) (hv : (V i).usesLeaf j = true) :
    (B.instantiate V buf x).usesLeaf j = true := by
  induction B with
  | pvar k =>
    have hk : k = i := by simpa [FExpr.usesP] using hp
    subst hk
    exact hv
  | xvar => simp [FExpr.usesP] at hp
  | bvar k => simp [FExpr.usesP] at hp
  | const c => simp [FExpr.usesP] at hp
  | add a b iha ihb =>
    simp only [FExpr.usesP, Bool.or_eq_true] at hp
    simp only [FExpr.instantiate, Expr.usesLeaf, Bool.or_eq_true]
    rcases hp with hl | hl
    · exact Or.inl (iha hl)
    · exact Or.inr (ihb hl)
  | sub a b iha ihb =>
    simp only [FExpr.usesP, Bool.or_eq_true] at hp
    simp only [FExpr.instantiate, Expr.usesLeaf, Bool.or_eq_true]
    rcases hp with hl | hl
    · exact Or.inl (iha hl)
    · exact Or.inr (ihb hl)
  | mul a b iha ihb =>
    simp only [FExpr.usesP, Bool.or_eq_true] at hp
    simp only [FExpr.instantiate, Expr.usesLeaf, Bool.or_eq_true]
    rcases hp with hl | hl
    · exact Or.inl (iha hl)
    · exact Or.inr (ihb hl)

theorem usesLeaf_updateParam (lr : ℚ) (env : ℕ → ℚ) (fo : Bool) (M : Module) (L : FExpr)
    (x : ℚ) (i j : ℕ) (p : Param) (h : p.value.usesLeaf j = true) :
    (updateParam lr env fo M L x i p).value.usesLeaf j = true := by
  unfold updateParam
  by_cases hr : p.requires_grad
  · cases hg : lossGrad M L x i with
    | some g => simp [hr, hg, Expr.usesLeaf, h]
    | none => simp [hr, hg, h]
  · simp [hr, h]

theorem length_params_baseModule (flags : List Bool) (body : FExpr) :
    (baseModule flags body).params.length = flags.length := by
  simp [baseModule]

theorem params_getD_baseModule (flags : List Bool) (body : FExpr) (i : ℕ)
    (hi : i < flags.length) :
    (baseModule flags body).params.getD i defaultParam =
      { value := Expr.leaf i, requires_grad := flags.getD i false } := by
  unfold baseModule
  simp only [List.getD_eq_getElem?_getD, List.getElem?_map, List.getElem?_range hi,
    Option.map_some', Option.getD_some]

theorem length_params_cloneModule (env : ℕ → ℚ) (M : Module) :
    (cloneModule env M).params.length = M.params.length := by
  simp [cloneModule]

theorem params_getD_cloneModule (env : ℕ → ℚ) (M : Module) (i : ℕ)
    (hi : i < M.params.length) :
    (cloneModule env M).params.getD i defaultParam =
      cloneParam env (M.params.getD i defaultParam) := by
  unfold cloneModule
  simp only [List.getD_eq_getElem?_getD, List.getElem?_map, List.getElem?_eq_getElem hi,
    Option.map_some', Option.getD_some]

/-- C5: for the norm-minimizing objective (the squared L2 norm of the
parameters) and a learning rate between 0 and 1, a single adapt step
does not increase the loss recomputed from the adapted parameters. -/
theorem C5_loss_nonincrease (env : ℕ → ℚ) (m : MAML) (x : ℚ) (m' : MAML)
    (hrg : ∀ p ∈ m.module.params, p.requires_grad = true)
    (hlr0 : 0 ≤ m.lr) (hlr1 : m.lr ≤ 1)
    (h : m.adapt env (sumSq m.module.params.length) x none none none = Except.ok m') :
    ((sumSq m.module.params.length).instantiate (paramValue m'.module)
        (bufferValue m'.module) x).eval env ≤
      ((sumSq m.module.params.length).instantiate (paramValue m.module)
        (bufferValue m.module) x).eval env := by
  obtain ⟨h1, h2, rfl⟩ := (adapt_eq_ok_iff env m _ x none none none m').1 h
  dsimp only
  rw [sumSq]
  rw [eval_instantiate_sumSqList, eval_instantiate_sumSqList]
  apply List.sum_le_sum
  intro i hi
  have hin : i < m.module.params.length := List.mem_range.1 hi
  have hrgi : (m.module.params.getD i defaultParam).requires_grad = true :=
    hrg _ (getD_mem_of_lt _ i _ hin)
  have huse : (sumSqList (List.range m.module.params.length)).usesP i = true :=
    (usesP_sumSqList _ i).2 (List.mem_range.2 hin)
  have hpv : paramValue
      (adaptedModule env (resolveFlag none m.first_order) m
        (sumSqList (List.range m.module.params.length)) x) i =
      Expr.sub (paramValue m.module i)
        (Expr.mul (Expr.const m.lr)
          (detachIf env (resolveFlag none m.first_order)
            (((sumSqList (List.range m.module.params.length)).derivP i).instantiate
              (paramValue m.module) (bufferValue m.module) x))) := by
    unfold paramValue
    rw [params_getD_adaptedModule env _ m _ x i hin]
    unfold updateParam lossGrad
    rw [hrgi, huse]
    rfl
  rw [hpv]
  simp only [Expr.eval, eval_detachIf]
  rw [eval_instantiate_derivP_sumSqList, count_range_eq, if_pos hin]
  set v := (paramValue m.module i).eval env with hv
  have key : 0 ≤ m.lr * (1 - m.lr) * (v * v) :=
    mul_nonneg (mul_nonneg hlr0 (by linarith)) (mul_self_nonneg _)
  push_cast
  nlinarith [key]

def c5module : Module :=
  { params := [⟨Expr.const 3, true⟩, ⟨Expr.const 4, true⟩],
    buffers := [],
    body := FExpr.pvar 0 }

/-- The c5 test wrapper: two gradient-requiring parameters, small lr. -/
def c5m : MAML :=
  { module := c5module, lr := 1/100, first_order := false,
    allow_unused := false, allow_nograd := false }

/-- c5m after one adapt step on the squared-norm objective. -/
def c5adapted : MAML :=
  match c5m.adapt (fun _ => 0) (sumSq 2) 0 none none none with
  | Except.ok m' => m'
  | Except.error _ => c5m

/-- Witness for C5: one adapt step on the squared-norm objective of c5m
does not increase the loss. -/
theorem C5_loss_nonincrease_witness :
    ((sumSq c5m.module.params.length).instantiate (paramValue c5adapted.module)
        (bufferValue c5adapted.module) 0).eval (fun _ => 0) ≤
      ((sumSq c5m.module.params.length).instantiate (paramValue c5m.module)
        (bufferValue c5m.module) 0).eval (fun _ => 0) :=
  C5_loss_nonincrease (fun _ => 0) c5m 0 c5adapted (by decide)
    (by norm_num [c5m]) (by norm_num [c5m]) (by rfl)

/-- The requires_grad flags of the original leaf parameters. -/
def rgOf (flags : List Bool) : ℕ → Bool := fun j => flags.getD j false

/-- A wrapper freshly constructed around an original module whose
parameters are the leaf tensors. -/
def baseWrapper (flags : List Bool) (body : FExpr) (lr : ℚ) (fo au an : Bool) : MAML :=
  { module := baseModule flags body, lr := lr, first_order := fo,
    allow_unused := au, allow_nograd := an }

/-- C6: when adapt runs on a clone with allow_nograd enabled and some
parameter is frozen, the frozen parameter is exactly unchanged by the
adaptation and keeps the original's numeric value; after a backward pass
on the squared-norm scalar of the adapted parameters, the frozen
original leaf's gradient is null while every gradient-requiring leaf
receives a non-null gradient. -/
theorem C6_allow_nograd_semantics (env : ℕ → ℚ) (flags : List Bool) (body L : FExpr)
    (lr : ℚ) (fo au an : Bool) (x xf : ℚ) (m' : MAML)
    (h : (MAML.clone env (baseWrapper flags body lr fo au an)).adapt env L x
        none none (some true) = Except.ok m') :
    (∀ i, i < flags.length → flags.getD i false = false →
      m'.module.params.getD i defaultParam =
        (MAML.clone env (baseWrapper flags body lr fo au an)).module.params.getD i
          defaultParam ∧
      (paramValue m'.module i).eval env = env i) ∧
    (∀ j, rgOf flags j = false →
      backwardGrad (rgOf flags) env
        ((sumSq flags.length).instantiate (paramValue m'.module)
          (bufferValue m'.module) xf) j = none) ∧
    (∀ j, j < flags.length → rgOf flags j = true →
      (backwardGrad (rgOf flags) env
        ((sumSq flags.length).instantiate (paramValue m'.module)
          (bufferValue m'.module) xf) j).isSome = true) := by
  obtain ⟨h1, h2, hm'⟩ :=
    (adapt_eq_ok_iff env (MAML.clone env (baseWrapper flags body lr fo au an)) L x
      none none (some true) m').1 h
  have hmod : m'.module = adaptedModule env
      (resolveFlag none (MAML.clone env (baseWrapper flags body lr fo au an)).first_order)
      (MAML.clone env (baseWrapper flags body lr fo au an)) L x := by
    rw [hm']
  have hlen : (MAML.clone env (baseWrapper flags body lr fo au an)).module.params.length =
      flags.length := by
    show (cloneModule env (baseModule flags body)).params.length = flags.length
    rw [length_params_cloneModule, length_params_baseModule]
  have hcloneD : ∀ i, i < flags.length →
      (MAML.clone env (baseWrapper flags body lr fo au an)).module.params.getD i
          defaultParam =
        cloneParam env { value := Expr.leaf i, requires_grad := flags.getD i false } := by
    intro i hi
    show (cloneModule env (baseModule flags body)).params.getD i defaultParam = _
    rw [params_getD_cloneModule env _ i (by rw [length_params_baseModule]; exact hi),
      params_getD_baseModule flags body i hi]
  refine ⟨?_, ?_, ?_⟩
  · intro i hi hfr
    have hadD := params_getD_adaptedModule env
      (resolveFlag none (MAML.clone env (baseWrapper flags body lr fo au an)).first_order)
      (MAML.clone env (baseWrapper flags body lr fo au an)) L x i (by rw [hlen]; exact hi)
    have hfrozen :
        ((MAML.clone env (baseWrapper flags body lr fo au an)).module.params.getD i
          defaultParam).requires_grad = false := by
      rw [hcloneD i hi]
      unfold cloneParam
      rw [hfr]
      simp
    constructor
    · rw [hmod, hadD]
      exact updateParam_frozen _ _ _ _ _ _ _ _ hfrozen
    · unfold paramValue
      rw [hmod, hadD, updateParam_frozen _ _ _ _ _ _ _ _ hfrozen, hcloneD i hi]
      unfold cloneParam
      rw [hfr]
      simp [Expr.eval]
  · intro j hj
    unfold backwardGrad
    rw [hj]
    simp
  · intro j hj hrg
    have hcv : ((MAML.clone env (baseWrapper flags body lr fo au an)).module.params.getD j
        defaultParam).value.usesLeaf j = true := by
      rw [hcloneD j hj]
      unfold cloneParam
      rw [show flags.getD j false = true from hrg]
      simp [Expr.usesLeaf]
    have hmv : (paramValue m'.module j).usesLeaf j = true := by
      unfold paramValue
      rw [hmod, params_getD_adaptedModule env _ _ L x j (by rw [hlen]; exact hj)]
      exact usesLeaf_updateParam _ _ _ _ _ _ _ _ _ hcv
    have hup : (sumSq flags.length).usesP j = true := by
      rw [sumSq]
      exact (usesP_sumSqList _ j).2 (List.mem_range.2 hj)
    have hS : ((sumSq flags.length).instantiate (paramValue m'.module)
        (bufferValue m'.module) xf).usesLeaf j = true :=
      usesLeaf_instantiate _ hup hmv
    unfold backwardGrad
    rw [hrg, hS]
    simp

def c6flags : List Bool := [true, false]

/-- The c6 test wrapper: second parameter frozen, all flags off. -/
def c6w : MAML := baseWrapper c6flags (FExpr.pvar 0) 1 false false false

/-- A clone of c6w adapted with the per-call allow_nograd override. -/
def c6adapted : MAML :=
  match (MAML.clone (fun _ => 1) c6w).adapt (fun _ => 1) (FExpr.pvar 0) 0
      none none (some true) with
  | Except.ok m' => m'
  | Except.error _ => c6w

/-- Witness for C6 on the concrete wrapper c6w: the frozen parameter
keeps the original value 1, its leaf gradient is null, and the
gradient-requiring leaf gets a non-null gradient. -/
theorem C6_allow_nograd_semantics_witness :
    (paramValue c6adapted.module 1).eval (fun _ => 1) = 1 ∧
    backwardGrad (rgOf c6flags) (fun _ => 1)
      ((sumSq c6flags.length).instantiate (paramValue c6adapted.module)
        (bufferValue c6adapted.module) 0) 1 = none ∧
    (backwardGrad (rgOf c6flags) (fun _ => 1)
      ((sumSq c6flags.length).instantiate (paramValue c6adapted.module)
        (bufferValue c6adapted.module) 0) 0).isSome = true := by
  have H := C6_allow_nograd_semantics (fun _ => 1) c6flags (FExpr.pvar 0) (FExpr.pvar 0)
    1 false false false 0 0 c6adapted (by rfl)
  exact ⟨(H.1 1 (by decide) (by decide)).2, H.2.1 1 (by decide),
    H.2.2 0 (by decide) (by decide)⟩

def c2module : Module :=
  { params := [⟨Expr.leaf 0, true⟩],
    buffers := [],
    body := FExpr.mul (FExpr.pvar 0) (FExpr.pvar 0) }

/-- The c2 test wrapper: a single gradient-requiring parameter whose
forward output is its square. -/
def c2m : MAML :=
  { module := c2module, lr := 1, first_order := false,
    allow_unused := false, allow_nograd := false }

/-- The cloned value of the c2 parameter. -/
def c2v : Expr := Expr.add (Expr.leaf 0) (Expr.const 0)

/-- The module of a clone of c2m after one adapt step on its own output
as the loss. -/
def c2adaptedModule : Module :=
  { params := [⟨Expr.sub c2v
      (Expr.mul (Expr.const 1)
        (Expr.add (Expr.mul (Expr.const 1) c2v) (Expr.mul c2v (Expr.const 1)))), true⟩],
    buffers := [],
    body := FExpr.mul (FExpr.pvar 0) (FExpr.pvar 0) }

/-- A clone of c2m after one adapt step on its own output as the loss,
with the parameter value at the critical point zero. -/
def c2adapted : MAML :=
  { module := c2adaptedModule, lr := 1, first_order := false,
    allow_unused := false, allow_nograd := false }

/-- Counterexample to C2 as stated: after one adapt step on a clone of
c2m, the original parameter requires gradients and is used by the
backwarded scalar, yet the gradient deposited by backward is zero (it is
non-null but not nonzero, since the parameter sits at a critical point
of the loss). -/
theorem C2_counterexample :
    adaptN (fun _ => 0) [(FExpr.mul (FExpr.pvar 0) (FExpr.pvar 0), 0)]
        (MAML.clone (fun _ => 0) c2m) = Except.ok c2adapted ∧
    Expr.usesLeaf (c2adapted.module.out 0) 0 = true ∧
    backwardGrad (fun _ => true) (fun _ => 0) (c2adapted.module.out 0) 0 = some 0 := by
  refine ⟨rfl, by decide, ?_⟩
  norm_num [backwardGrad, Module.out, FExpr.instantiate, paramValue, bufferValue,
    defaultParam, c2adapted, c2adaptedModule, c2v, Expr.usesLeaf, Expr.deriv, Expr.eval]

/-- C2 (amended): after any number of adaptation steps on a clone,
backward on a scalar computed from the clone's output deposits a
non-null (though possibly zero) gradient into every original parameter
that requires gradients and is reached by the scalar's graph. -/
theorem C2_nonnull_gradient (env : ℕ → ℚ) (rg : ℕ → Bool) (m : MAML)
    (steps : List (FExpr × ℚ)) (x : ℚ) (j : ℕ) (m' : MAML)
    (h : adaptN env steps (MAML.clone env m) = Except.ok m')
    (hr : rg j = true)
    (hu : Expr.usesLeaf (m'.module.out x) j = true) :
    (backwardGrad rg env (m'.module.out x) j).isSome = true := by
  unfold backwardGrad
  rw [hr, hu]
  simp

/-- Witness for the amended C2 at the concrete adapted clone of c2m. -/
theorem C2_nonnull_gradient_witness :
    (backwardGrad (fun _ => true) (fun _ => 0) (c2adapted.module.out 0) 0).isSome =
      true :=
  C2_nonnull_gradient (fun _ => 0) (fun _ => true) c2m
    [(FExpr.mul (FExpr.pvar 0) (FExpr.pvar 0), 0)] 0 0 c2adapted (by rfl) rfl
    (by decide)

end Learn2Learn
